import Mathlib

/-!
Shallow embedding of the `cli-export-project` tool (`src/exportProject.ts`,
`src/log.ts`).  JavaScript objects used as string-keyed maps are modelled as
insertion-ordered association lists, `Object.assign` as an in-place update
that keeps the position of existing keys and appends new ones.  Asynchronous
phases are modelled sequentially in the order the source pushes the tasks;
fallible operations return `Except`/`Option`.  The Node `fs`, `glob`, `path`
and `resolve-cwd` collaborators are modelled as function fields of an
environment record; `path.join` is modelled as separator concatenation and
`path.normalize` as the identity, which the exercised code paths never
distinguish.
-/

namespace ExportProject

/-- JavaScript object used as a map from package name to version
(insertion ordered, as `StringMap` in the source). -/
abbrev StringMap := List (String × String)

/-- Property assignment `target[k] = v`: an existing key keeps its position
and gets the new value, a new key is appended. -/
def setKey (m : StringMap) (k v : String) : StringMap :=
  if k ∈ m.map Prod.fst then
    m.map (fun p => if p.1 = k then (k, v) else p)
  else
    m ++ [(k, v)]

/-- `Object.assign(target, source)`: copy every entry of `source` into
`target` in order, overwriting values of existing keys. -/
def objAssign (target source : StringMap) : StringMap :=
  source.foldl (fun t p => setKey t p.1 p.2) target

/-- Lookup of a key in a JavaScript-object model. -/
def getVal (m : StringMap) (k : String) : Option String :=
  match m with
  | [] => none
  | (k', v) :: rest => if k' = k then some v else getVal rest k

/-- Console channels of `src/log.ts`: `log` always prints, `verbose` prints
only when the verbose flag is set. -/
inductive LogLevel
  | always
  | verbose
deriving DecidableEq

/-- One recorded console line together with the channel it was sent to. -/
structure LogEntry where
  level : LogLevel
  message : String
deriving DecidableEq

/-- File kinds of `interfaces/project.json` (`ProjectFileType`). -/
inductive ProjectFileType
  | TypeScript
  | HTML
  | CSS
  | JSON
  | XML
  | Markdown
  | Definition
  | Lib
  | PlainText
deriving DecidableEq

/-- One collected file (`ProjectFile` in the source). -/
structure ProjectFile where
  name : String
  text : String
  type : ProjectFileType
deriving DecidableEq

/-- Helper mirroring `createProjectFile`; the type argument defaults to
`Definition` as in the source. -/
def createProjectFile (name text : String)
    (type : ProjectFileType := ProjectFileType.Definition) : ProjectFile :=
  { name := name, text := text, type := type }

/-- Parsed shape of a dependency `package.json` (the fields the tool reads;
all other fields are passed through opaquely and are irrelevant here). -/
structure PackageJson where
  name : Option String := none
  dependencies : StringMap := []
  devDependencies : StringMap := []
  peerDependencies : StringMap := []
  typings : Option String := none
  types : Option String := none
deriving DecidableEq

/-- Parsed `compilerOptions` of the `tsconfig.json` (the fields the tool
reads). -/
structure CompilerOptions where
  lib : Option (List String) := none
  types : Option (List String) := none
deriving DecidableEq

/-- Parsed `tsconfig.json` (the fields the tool reads). -/
structure TsConfig where
  compilerOptions : Option CompilerOptions := none
  «include» : Option (List String) := none
deriving DecidableEq

/-- The `dependencies` field of the output bundle. -/
structure DependenciesJson where
  production : StringMap
  development : StringMap
deriving DecidableEq

/-- The output bundle (`ProjectJson` in the source).  The `package` and
`tsconfig` copies are kept in parsed form, `dojorc` as raw text. -/
structure ProjectJson where
  dependencies : DependenciesJson
  environmentFiles : List ProjectFile
  files : List ProjectFile
  index : String
  package : PackageJson
  tsconfig : TsConfig
  dojorc : Option String := none
deriving DecidableEq

/-- The bundle skeleton built at the top of `createProject`. -/
def emptyProject : ProjectJson :=
  { dependencies := { production := [], development := [] }
    environmentFiles := []
    files := []
    index := ""
    package := {}
    tsconfig := {}
    dojorc := none }

/-- Model of `path.join` for the two-segment joins the source performs. -/
def joinPath (a b : String) : String := a ++ ("/" ++ b)

/-- Model of `path.normalize`; the paths the tool builds are already in
normal form, so this is the identity. -/
def normalizePath (p : String) : String := p

/-- Kernel-computable prefix test on strings (model of the library
prefix test, computed on the character lists). -/
def strIsPrefixOf (p s : String) : Bool := p.data.isPrefixOf s.data

/-- Kernel-computable suffix test on strings (model of the end-anchored
regular-expression tests of the source). -/
def strEndsWith (s suffix : String) : Bool := suffix.data.isSuffixOf s.data

/-- Kernel-computable drop of leading characters. -/
def strDrop (s : String) (n : Nat) : String := ⟨s.data.drop n⟩

/-- Kernel-computable drop of trailing characters. -/
def strDropRight (s : String) (n : Nat) : String := ⟨s.data.take (s.data.length - n)⟩

/-- Model of `path.relative(base, p)` for the uses in the source: strip the
base directory prefix when present. -/
def relPath (base p : String) : String :=
  if strIsPrefixOf (base ++ "/") p then strDrop p (base.length + 1) else p

/-- Model of `path.extname`: the suffix of the last path segment starting at
its last dot, empty when the segment has no dot or starts with the dot. -/
def extname (s : String) : String :=
  let rb := s.data.reverse.takeWhile (fun c => !(c == '/' || c == '\\'))
  match rb.findIdx? (fun c => c == '.') with
  | none => ""
  | some i => if i + 1 == rb.length then "" else ⟨(rb.take (i + 1)).reverse⟩

/-- Direct translation of `getProjectFileType`. -/
def getProjectFileType (name : String) : ProjectFileType :=
  let ext := extname name
  if ext = ".ts" then
    if strEndsWith name ".d.ts" then ProjectFileType.Definition else ProjectFileType.TypeScript
  else if ext = ".html" then ProjectFileType.HTML
  else if ext = ".css" then ProjectFileType.CSS
  else if ext = ".json" then ProjectFileType.JSON
  else if ext = ".xml" then ProjectFileType.XML
  else if ext = ".md" then ProjectFileType.Markdown
  else ProjectFileType.PlainText

/-- Translation of `pattern.replace(/(\.d)?\.ts$/, ".{exts}")`: the regular
expression is end-anchored with a greedy optional `.d` group, so it rewrites
a trailing `.d.ts`, else a trailing `.ts`, else nothing. -/
def rewritePattern (pattern includeExtensions : String) : String :=
  if strEndsWith pattern ".d.ts" then
    strDropRight pattern 5 ++ (".\x7b" ++ includeExtensions ++ "\x7d")
  else if strEndsWith pattern ".ts" then
    strDropRight pattern 3 ++ (".\x7b" ++ includeExtensions ++ "\x7d")
  else pattern

/-- Character-level model of `String.replace(/[\/\\]/, "-")`: only the first
forward or back slash is replaced, because the regular expression has no
global flag. -/
def replaceFirstPathSepAux : List Char → List Char
  | [] => []
  | c :: cs => if c = '/' ∨ c = '\\' then '-' :: cs else c :: replaceFirstPathSepAux cs

/-- String wrapper of `replaceFirstPathSepAux`. -/
def replaceFirstPathSep (s : String) : String := ⟨replaceFirstPathSepAux s.data⟩

/-- JavaScript `a || d` for an optional string `a`: the default wins when
the field is absent or the empty string (falsy). -/
def jsOrDefault (v : Option String) (d : String) : String :=
  match v with
  | some s => if s = "" then d else s
  | none => d

/-- JavaScript `a || b` for two optional strings under a truthiness test:
the result is `none` exactly when the chained value is falsy. -/
def jsStringOr (a b : Option String) : Option String :=
  match a with
  | some s =>
    if s = "" then
      match b with
      | some t => if t = "" then none else some t
      | none => none
    else some s
  | none =>
    match b with
    | some t => if t = "" then none else some t
    | none => none

/-- Output filename computation of `exportProject`:
`(project.package.name || "bundle").replace(/[\/\\]/, "-") + ".project.json"`. -/
def outFileName (name : Option String) : String :=
  replaceFirstPathSep (jsOrDefault name "bundle") ++ ".project.json"

/-- Environment record bundling the external collaborators: the process
working directories, the `fs`, `glob` and `resolve-cwd` adapters and the
JSON codec.  A `none` result models the corresponding callback error or
thrown exception. -/
structure Env where
  initialCwd : String
  projectCwd : String
  fileExists : String → Bool
  readFile : String → Option String
  globMatch : String → Option (List String)
  resolve : String → Option String
  parsePackage : String → Option PackageJson
  parseTsconfig : String → Option TsConfig
  stringifyPackage : PackageJson → String
  writeOk : String → Bool

deriving instance DecidableEq for Except

/-- Structured CLI arguments (`ExportArgs` in `src/main.ts`); `none` models
an argument the user did not pass. -/
structure ExportArgs where
  content : Option String := none
  index : Option String := none
  out : String := "."
  project : String := "."
  verboseFlag : Bool := false

/-- The attempt of `getDependencies` to locate, read and parse the manifest
of one dependency package; the three failure modes are equivalent because
they are caught by the same `try` block. -/
def lookupPackage (env : Env) (packageName : String) : Option PackageJson :=
  ((env.resolve (joinPath packageName "package.json")).bind env.readFile).bind
    env.parsePackage

/-- Mutable state of one `getDependencies` frontier pass: the local
accumulator, the shared visited set (insertion ordered), the names whose
manifest lookup was actually attempted in this run, and the console
output. -/
structure DepState where
  deps : StringMap
  parsed : List String
  trace : List String
  log : List LogEntry

/-- Verbose report of the dependency keys of a successfully parsed
manifest, emitted by the loop body of `getDependencies`. -/
def dependsLogs (pkg : PackageJson) : List LogEntry :=
  (if pkg.dependencies.isEmpty then []
   else [⟨LogLevel.verbose,
     "depends on packages \"" ++
       String.intercalate "\", \"" (pkg.dependencies.map Prod.fst) ++ "\""⟩]) ++
  (if pkg.peerDependencies.isEmpty then []
   else [⟨LogLevel.verbose,
     "depends on peer packages \"" ++
       String.intercalate "\", \"" (pkg.peerDependencies.map Prod.fst) ++ "\""⟩])

/-- Body of the `for (const packageName in packages)` loop of
`getDependencies` for a single frontier package. -/
def processPackage (env : Env) (st : DepState) (packageName : String) : DepState :=
  if packageName ∈ st.parsed then
    { st with
      log := st.log ++
        [⟨LogLevel.verbose,
          "skipping dependencies for package \"" ++ packageName ++ "\", already seen"⟩] }
  else
    let st : DepState :=
      { st with
        parsed := st.parsed ++ [packageName]
        trace := st.trace ++ [packageName]
        log := st.log ++
          [⟨LogLevel.verbose,
            "resolving dependencies for package \"" ++ packageName ++ "\""⟩] }
    match lookupPackage env packageName with
    | none =>
      { st with
        log := st.log ++
          [⟨LogLevel.verbose,
            "missing \"" ++ joinPath packageName "package.json" ++ "\""⟩] }
    | some packageJson =>
      { st with
        deps := objAssign (objAssign st.deps packageJson.peerDependencies)
          packageJson.dependencies
        log := st.log ++ dependsLogs packageJson }

/-- One full frontier pass of `getDependencies` with a fresh local
accumulator. -/
def depPass (env : Env) (packages : StringMap) (parsed : List String) : DepState :=
  packages.foldl (fun st p => processPackage env st p.1)
    { deps := [], parsed := parsed, trace := [], log := [] }

/-- Aggregate result of a `getDependencies` run. -/
structure DepResult where
  deps : StringMap
  parsed : List String
  trace : List String
  log : List LogEntry

/-- Recursive translation of `getDependencies`.  The source recursion has no
structural bound, so the embedding spends one unit of fuel per recursion
level and returns `none` when the fuel is exhausted; fuel sufficiency is
proved separately. -/
def getDependencies (env : Env) : Nat → StringMap → List String → Option DepResult
  | 0, _, _ => none
  | fuel + 1, packages, parsed =>
    let st := depPass env packages parsed
    if st.deps.isEmpty then
      some { deps := st.deps, parsed := st.parsed, trace := st.trace, log := st.log }
    else
      match getDependencies env fuel st.deps st.parsed with
      | none => none
      | some r =>
        some { deps := objAssign st.deps r.deps
               parsed := r.parsed
               trace := st.trace ++ r.trace
               log := st.log ++ r.log }

/-- Error message thrown when the required files are absent. -/
def missingFilesError (env : Env) : String :=
  "Path \"" ++ env.projectCwd ++ "\" does not contain a \"tsconfig.json\" and \"package.json\"."

/-- Translation of `createProject`: the existence precondition for the two
required files, then the reads and parses of `package.json`,
`tsconfig.json` and the optional `.dojorc`. -/
def createProject (env : Env) : Except String (ProjectJson × List LogEntry) :=
  if !(env.fileExists "package.json" && env.fileExists "tsconfig.json") then
    Except.error (missingFilesError env)
  else
    match env.readFile "package.json" with
    | none => Except.error "error reading \"package.json\""
    | some packageText =>
      match env.parsePackage packageText with
      | none => Except.error "error parsing \"package.json\""
      | some packageJson =>
        match env.readFile "tsconfig.json" with
        | none => Except.error "error reading \"tsconfig.json\""
        | some tsconfigText =>
          match env.parseTsconfig tsconfigText with
          | none => Except.error "error parsing \"tsconfig.json\""
          | some tsconfig =>
            let p := { emptyProject with package := packageJson, tsconfig := tsconfig }
            let logs : List LogEntry :=
              [⟨LogLevel.verbose, "reading \"package.json\""⟩,
               ⟨LogLevel.verbose, "reading \"tsconfig.json\""⟩]
            if env.fileExists ".dojorc" then
              match env.readFile ".dojorc" with
              | none => Except.error "error reading \".dojorc\""
              | some dojorcText =>
                Except.ok ({ p with dojorc := some dojorcText },
                  logs ++ [⟨LogLevel.verbose, "reading \".dojorc\""⟩])
            else
              Except.ok (p, logs)

/-- Per-entry loop of `addLibFiles`; a read failure of a lib file rejects
the whole phase. -/
def addLibFilesList (env : Env) (p : ProjectJson) :
    List String → Except String (ProjectJson × List LogEntry)
  | [] => Except.ok (p, [])
  | lib :: rest =>
    let filename := "lib." ++ lib ++ ".d.ts"
    match env.readFile ("node_modules/typescript/lib/" ++ filename) with
    | none => Except.error ("error reading \"node_modules/typescript/lib/" ++ filename ++ "\"")
    | some text =>
      match addLibFilesList env
          { p with environmentFiles :=
              p.environmentFiles ++ [createProjectFile filename text ProjectFileType.Lib] }
          rest with
      | Except.error e => Except.error e
      | Except.ok (p', logs) =>
        Except.ok (p', ⟨LogLevel.verbose, "adding lib \"" ++ lib ++ "\""⟩ :: logs)

/-- Translation of `addLibFiles`, guarded by the truthiness tests on
`compilerOptions` and `compilerOptions.lib`. -/
def addLibFiles (env : Env) (p : ProjectJson) :
    Except String (ProjectJson × List LogEntry) :=
  match p.tsconfig.compilerOptions with
  | none => Except.ok (p, [])
  | some co =>
    match co.lib with
    | none => Except.ok (p, [])
    | some libs => addLibFilesList env p libs

/-- Body of the `addTypesFiles` task for one requested types package:
append the package manifest as JSON, then either follow the declared
`typings`/`types` entry point (whose failures propagate) or warn and try
the `index.d.ts` fallback (whose failures are swallowed). -/
def addTypesForPackage (env : Env) (p : ProjectJson) (packageName : String) :
    Except String (ProjectJson × List LogEntry) :=
  let logs0 : List LogEntry :=
    [⟨LogLevel.verbose, "resolving types for package \"" ++ packageName ++ "\""⟩]
  match env.resolve (joinPath packageName "package.json") with
  | none => Except.error ("error resolving \"" ++ joinPath packageName "package.json" ++ "\"")
  | some resolved =>
    let packageJsonFilename := relPath env.projectCwd resolved
    match env.readFile packageJsonFilename with
    | none => Except.error ("error reading \"" ++ packageJsonFilename ++ "\"")
    | some text =>
      match env.parsePackage text with
      | none => Except.error ("error parsing \"" ++ packageJsonFilename ++ "\"")
      | some packageJson =>
        let p :=
          { p with environmentFiles :=
              p.environmentFiles ++
                [createProjectFile packageJsonFilename (env.stringifyPackage packageJson)
                  ProjectFileType.JSON] }
        match jsStringOr packageJson.typings packageJson.types with
        | some typings =>
          match env.resolve (normalizePath (joinPath packageName typings)) with
          | none =>
            Except.error ("error resolving \"" ++ normalizePath (joinPath packageName typings) ++ "\"")
          | some r2 =>
            let filename := relPath env.projectCwd r2
            match env.readFile filename with
            | none => Except.error ("error reading \"" ++ filename ++ "\"")
            | some t2 =>
              Except.ok
                ({ p with environmentFiles :=
                    p.environmentFiles ++ [createProjectFile filename t2] },
                 logs0 ++ [⟨LogLevel.verbose, "adding type file \"" ++ filename ++ "\""⟩])
        | none =>
          let warn : LogEntry :=
            ⟨LogLevel.always,
              "warn \"" ++ packageJsonFilename ++ "\" does not contain type information"⟩
          match env.resolve (normalizePath (joinPath packageName "index.d.ts")) with
          | none => Except.ok (p, logs0 ++ [warn])
          | some r2 =>
            let filename := relPath env.projectCwd r2
            match env.readFile filename with
            | none => Except.ok (p, logs0 ++ [warn])
            | some t2 =>
              Except.ok
                ({ p with environmentFiles :=
                    p.environmentFiles ++ [createProjectFile filename t2] },
                 logs0 ++ [warn, ⟨LogLevel.verbose, "adding type file \"" ++ filename ++ "\""⟩])

/-- Per-package loop of `addTypesFiles`. -/
def addTypesFilesList (env : Env) (p : ProjectJson) :
    List String → Except String (ProjectJson × List LogEntry)
  | [] => Except.ok (p, [])
  | packageName :: rest =>
    match addTypesForPackage env p packageName with
    | Except.error e => Except.error e
    | Except.ok (p', logs) =>
      match addTypesFilesList env p' rest with
      | Except.error e => Except.error e
      | Except.ok (p'', logs') => Except.ok (p'', logs ++ logs')

/-- Translation of `addTypesFiles`, guarded by the truthiness tests on
`compilerOptions` and `compilerOptions.types`. -/
def addTypesFiles (env : Env) (p : ProjectJson) :
    Except String (ProjectJson × List LogEntry) :=
  match p.tsconfig.compilerOptions with
  | none => Except.ok (p, [])
  | some co =>
    match co.types with
    | none => Except.ok (p, [])
    | some types => addTypesFilesList env p types

/-- Fixed suffix of the regular expression `DOJO_EXCLUDE`. -/
def dojoExcludeSuffix : String := "@dojo/loader/interfaces.d.ts"

/-- Per-match loop of `addDefinitionFiles`: skip the hardcoded excluded
path, read every other match and append it as a definition file. -/
def addDefinitionFilesList (env : Env) (p : ProjectJson) :
    List String → Except String (ProjectJson × List LogEntry)
  | [] => Except.ok (p, [])
  | filename :: rest =>
    if strEndsWith filename dojoExcludeSuffix then
      addDefinitionFilesList env p rest
    else
      match env.readFile filename with
      | none => Except.error ("error reading \"" ++ filename ++ "\"")
      | some text =>
        match addDefinitionFilesList env
            { p with environmentFiles :=
                p.environmentFiles ++ [createProjectFile filename text] }
            rest with
        | Except.error e => Except.error e
        | Except.ok (p', logs) =>
          Except.ok (p',
            ⟨LogLevel.verbose, "adding definition file \"" ++ filename ++ "\""⟩ :: logs)

/-- The glob pattern of `addDefinitionFiles`. -/
def dojoDefinitionsPattern : String := "node_modules/\x7b@dojo,@types\x7d/**/*.d.ts"

/-- Translation of `addDefinitionFiles`. -/
def addDefinitionFiles (env : Env) (p : ProjectJson) :
    Except String (ProjectJson × List LogEntry) :=
  match env.globMatch dojoDefinitionsPattern with
  | none => Except.error ("error matching \"" ++ dojoDefinitionsPattern ++ "\"")
  | some files => addDefinitionFilesList env p files

/-- Default of the `includeExtensions` parameter of `addProjectFiles`. -/
def defaultIncludeExtensions : String := "ts,html,css,json,xml,md"

/-- Glob expansion of all rewritten include patterns, concatenated in
pattern order; an expansion error rejects the phase. -/
def globAll (env : Env) : List String → Except String (List String)
  | [] => Except.ok []
  | pat :: rest =>
    match env.globMatch pat with
    | none => Except.error ("error matching \"" ++ pat ++ "\"")
    | some found =>
      match globAll env rest with
      | Except.error e => Except.error e
      | Except.ok ms => Except.ok (found ++ ms)

/-- Per-file loop of `addProjectFiles`: read each matched file and append
it classified by `getProjectFileType`. -/
def readProjectFiles (env : Env) (p : ProjectJson) :
    List String → Except String (ProjectJson × List LogEntry)
  | [] => Except.ok (p, [])
  | name :: rest =>
    match env.readFile name with
    | none => Except.error ("error reading \"" ++ name ++ "\"")
    | some text =>
      match readProjectFiles env
          { p with files :=
              p.files ++ [{ name := name, text := text, type := getProjectFileType name }] }
          rest with
      | Except.error e => Except.error e
      | Except.ok (p', logs) =>
        Except.ok (p', ⟨LogLevel.verbose, "adding project file \"" ++ name ++ "\""⟩ :: logs)

/-- Translation of `addProjectFiles`: a no-op without an `include` list,
otherwise rewrite each pattern, glob, concatenate and read. -/
def addProjectFiles (env : Env) (p : ProjectJson) (includeExtensions : String) :
    Except String (ProjectJson × List LogEntry) :=
  match p.tsconfig.«include» with
  | none => Except.ok (p, [])
  | some patterns =>
    match globAll env (patterns.map (fun pat => rewritePattern pat includeExtensions)) with
    | Except.error e => Except.error e
    | Except.ok files => readProjectFiles env p files

/-- Translation of `addDependencies`: seed the production set from the
peer and regular dependencies of the consuming manifest, resolve, then
seed the development set from `devDependencies` with a fresh visited set
and resolve again.  Fuel exhaustion is a model artifact reported as an
error. -/
def addDependencies (env : Env) (p : ProjectJson) (fuel : Nat) :
    Except String (ProjectJson × List LogEntry) :=
  let prod1 := objAssign (objAssign p.dependencies.production p.package.peerDependencies)
    p.package.dependencies
  match getDependencies env fuel prod1 [] with
  | none => Except.error "insufficient recursion fuel"
  | some r =>
    let dev1 := objAssign p.dependencies.development p.package.devDependencies
    match getDependencies env fuel dev1 [] with
    | none => Except.error "insufficient recursion fuel"
    | some r2 =>
      Except.ok
        ({ p with dependencies :=
            { production := objAssign prod1 r.deps, development := objAssign dev1 r2.deps } },
         ⟨LogLevel.verbose, "resolving production dependecies:"⟩ :: r.log ++
           ⟨LogLevel.verbose, "resolving development dependecies:"⟩ :: r2.log)

/-- Translation of `setProjectIndex`: non-fatal validation that the
requested index is among the collected files. -/
def setProjectIndex (p : ProjectJson) (index : String) : ProjectJson × List LogEntry :=
  if (p.files.find? (fun f => f.name = index)).isSome then
    ({ p with index := index }, [])
  else
    (p, [⟨LogLevel.always, "error unable to find index \"" ++ index ++ "\" in project."⟩])

/-- The five gathering phases in the order `exportProject` pushes the
tasks; the concurrent `Promise.all` join is modelled sequentially, which
agrees with the synchronous-callback scheduling the tool is tested
under. -/
def gatherPhases (env : Env) (args : ExportArgs) (fuel : Nat) (p : ProjectJson) :
    Except String (ProjectJson × List LogEntry) :=
  match addLibFiles env p with
  | Except.error e => Except.error e
  | Except.ok (p, l1) =>
    match addTypesFiles env p with
    | Except.error e => Except.error e
    | Except.ok (p, l2) =>
      match addDefinitionFiles env p with
      | Except.error e => Except.error e
      | Except.ok (p, l3) =>
        match addProjectFiles env p (args.content.getD defaultIncludeExtensions) with
        | Except.error e => Except.error e
        | Except.ok (p, l4) =>
          match addDependencies env p fuel with
          | Except.error e => Except.error e
          | Except.ok (p, l5) => Except.ok (p, l1 ++ l2 ++ l3 ++ l4 ++ l5)

/-- The `try` block of `exportProject`: create the bundle, gather, validate
the index, compute the output path and write. -/
def exportPipeline (env : Env) (args : ExportArgs) (fuel : Nat) :
    Except String (String × ProjectJson × List LogEntry) :=
  match createProject env with
  | Except.error e => Except.error e
  | Except.ok (p, lc) =>
    match gatherPhases env args fuel p with
    | Except.error e => Except.error e
    | Except.ok (p, lg) =>
      let (p, li) := setProjectIndex p (args.index.getD "./src/index.html")
      let outfilename := outFileName p.package.name
      let outfile :=
        relPath env.projectCwd
          (normalizePath (joinPath (joinPath env.initialCwd args.out) outfilename))
      if env.writeOk outfile then
        Except.ok (outfile, p,
          lc ++ lg ++ li ++
            [⟨LogLevel.always,
              "exported to \"" ++ relPath env.initialCwd outfile ++ "\""⟩])
      else
        Except.error ("error writing file \"" ++ outfile ++ "\"")

/-- Observable outcome of one invocation: the files written and the console
lines recorded with their channel. -/
structure ExportResult where
  written : List (String × ProjectJson)
  log : List LogEntry

/-- Translation of the exported `exportProject` entry point: the banner,
the working-directory switch, the pipeline and the single top-level
recovery point that converts any thrown error into two always-visible log
lines and suppresses the write.  Console lines printed before a failure
are not tracked on the error path. -/
def exportProject (env : Env) (args : ExportArgs) (fuel : Nat) : ExportResult :=
  let banner : LogEntry := ⟨LogLevel.always, "Export project bundle"⟩
  let chg : List LogEntry :=
    if env.projectCwd ≠ env.initialCwd then
      [⟨LogLevel.verbose, "changing working directory to \"" ++ args.project ++ "\""⟩]
    else []
  match exportPipeline env args fuel with
  | Except.ok (outfile, p, logs) =>
    { written := [(outfile, p)], log := banner :: chg ++ logs }
  | Except.error e =>
    { written := [],
      log := banner :: chg ++ [⟨LogLevel.always, "errored " ++ e⟩, ⟨LogLevel.always, ""⟩] }

end ExportProject



namespace ExportProject

/-! Concrete environments for the dependency-resolution scenarios. -/

/-- Baseline environment in which every external operation fails; concrete
scenarios override individual fields. -/
def baseEnv : Env :=
  { initialCwd := "/var/projects/test-project"
    projectCwd := "/var/projects/test-project"
    fileExists := fun _ => false
    readFile := fun _ => none
    globMatch := fun _ => none
    resolve := fun _ => none
    parsePackage := fun _ => none
    parseTsconfig := fun _ => none
    stringifyPackage := fun _ => ""
    writeOk := fun _ => false }

/-- Registry with two packages A and B that declare the same dependency
name X under different versions. -/
def envLastWrite : Env :=
  { baseEnv with
    resolve := fun s => some s
    readFile := fun s => some s
    parsePackage := fun s =>
      if s = "A/package.json" then some { dependencies := [("X", "1.0.0")] }
      else if s = "B/package.json" then some { dependencies := [("X", "1.0.1")] }
      else none }

/-- Manifest that declares the same name Y as peer dependency (2.0.0) and
regular dependency (1.0.0). -/
def pkgC2 : PackageJson :=
  { dependencies := [("Y", "1.0.0")], peerDependencies := [("Y", "2.0.0")] }

/-- Consuming project whose own manifest is `pkgC2`. -/
def projC2 : ProjectJson := { emptyProject with package := pkgC2 }

/-- Registry where the names A and B resolve but the name "missing" does
not. -/
def envC8 : Env :=
  { baseEnv with
    resolve := fun s => some s
    readFile := fun s => some s
    parsePackage := fun s =>
      if s = "A/package.json" then some { dependencies := [("X", "1.0.0")] }
      else if s = "B/package.json" then some { dependencies := [("Z", "2.0.0")] }
      else none }

/-- Environment for the include-collection scenario: one glob pattern
expands to a single TypeScript file. -/
def envC7 : Env :=
  { baseEnv with
    readFile := fun s => some s
    globMatch := fun pat =>
      if pat = "src/**/*.\x7bts,html,css,json,xml,md\x7d" then some ["src/a.ts"] else none }

/-- Result of reading the duplicated match list in the include-collection
scenario. -/
def projC7 : ProjectJson :=
  { emptyProject with files :=
      [{ name := "src/a.ts", text := "src/a.ts", type := ProjectFileType.TypeScript },
       { name := "src/a.ts", text := "src/a.ts", type := ProjectFileType.TypeScript }] }

/-- Environment for the index-validation scenario: the project collects one
source file whose name differs from the default index path. -/
def envC5 : Env :=
  { baseEnv with
    fileExists := fun s => s = "package.json" || s = "tsconfig.json"
    readFile := fun _ => some ""
    globMatch := fun pat =>
      if pat = "src/**/*.\x7bts,html,css,json,xml,md\x7d" then some ["src/other.ts"]
      else if pat = dojoDefinitionsPattern then some []
      else none
    parsePackage := fun _ => some { name := some "test-package" }
    parseTsconfig := fun _ =>
      some { compilerOptions := none, «include» := some ["src/**/*.ts"] }
    writeOk := fun _ => true }

/-- Bundle after `createProject` in the index-validation scenario. -/
def p0C5 : ProjectJson :=
  { emptyProject with
    package := { name := some "test-package" }
    tsconfig := { compilerOptions := none, «include» := some ["src/**/*.ts"] } }

/-- Bundle after the gathering phases in the index-validation scenario. -/
def p1C5 : ProjectJson :=
  { p0C5 with files := [{ name := "src/other.ts", text := "", type := ProjectFileType.TypeScript }] }

/-- Environment for the missing-type-information scenario: the package baz
has a manifest with neither `typings` nor `types`, and its `index.d.ts`
fallback does not resolve. -/
def envC9 : Env :=
  { baseEnv with
    resolve := fun s => if s = joinPath "baz" "index.d.ts" then none else some s
    readFile := fun s => some s
    parsePackage := fun s => if s = "baz/package.json" then some {} else none }

/-- Compiler configuration requesting the types package foo. -/
def tsconfigC10 : TsConfig := { compilerOptions := some { types := some ["foo"] } }

/-- Bundle state after `createProject` in the declared-typings scenario. -/
def projC10 : ProjectJson := { emptyProject with tsconfig := tsconfigC10 }

/-- Environment where the requested types package foo declares
`typings: "foo.d.ts"` but reading that entry point fails. -/
def envC10 : Env :=
  { baseEnv with
    fileExists := fun s => s = "package.json" || s = "tsconfig.json"
    readFile := fun s => if s = "node_modules/foo/foo.d.ts" then none else some s
    resolve := fun s => some (joinPath "node_modules" s)
    parsePackage := fun s =>
      if s = "package.json" then some {}
      else if s = "node_modules/foo/package.json" then some { typings := some "foo.d.ts" }
      else none
    parseTsconfig := fun _ => some tsconfigC10
    writeOk := fun _ => true }

/-- Registry with the dependency cycle A→B→A. -/
def envCyclic : Env :=
  { baseEnv with
    resolve := fun s => some s
    readFile := fun s => some s
    parsePackage := fun s =>
      if s = "A/package.json" then some { dependencies := [("B", "1.0.0")] }
      else if s = "B/package.json" then some { dependencies := [("A", "1.0.0")] }
      else none }


end ExportProject

namespace ExportProject

/-! Association-list facts about the JavaScript object model. -/

/-- Unfolding of `getVal` on a cons cell. -/
theorem getVal_cons (a b : String) (rest : StringMap) (k : String) :
    getVal ((a, b) :: rest) k = if a = k then some b else getVal rest k := rfl

/-- Unfolding of `objAssign` on a cons cell of the source. -/
theorem objAssign_cons (m : StringMap) (a b : String) (s : StringMap) :
    objAssign m ((a, b) :: s) = objAssign (setKey m a b) s := rfl

/-- Lookup distributes over append: the left map is consulted first. -/
theorem getVal_append (m1 m2 : StringMap) (k : String) :
    getVal (m1 ++ m2) k =
      match getVal m1 k with
      | some v => some v
      | none => getVal m2 k := by
  induction m1 with
  | nil => simp [getVal]
  | cons p rest ih =>
    obtain ⟨k', v'⟩ := p
    by_cases h : k' = k
    · simp [getVal_cons, h]
    · simp [getVal_cons, h, ih]

/-- A key outside the key list of a map looks up to nothing. -/
theorem getVal_eq_none_of_not_mem (m : StringMap) (k : String)
    (h : k ∉ m.map Prod.fst) : getVal m k = none := by
  induction m with
  | nil => rfl
  | cons p rest ih =>
    obtain ⟨k', v'⟩ := p
    simp only [List.map_cons, List.mem_cons, not_or] at h
    rw [getVal_cons, if_neg fun hh => h.1 hh.symm]
    exact ih h.2

/-- Updating an existing key in place finds the new value. -/
theorem getVal_map_upd_self (m : StringMap) (k v : String)
    (h : k ∈ m.map Prod.fst) :
    getVal (m.map (fun p => if p.1 = k then (k, v) else p)) k = some v := by
  induction m with
  | nil => simp at h
  | cons p rest ih =>
    obtain ⟨k', v'⟩ := p
    by_cases hk : k' = k
    · subst hk
      simp [getVal_cons]
    · have h' : k ∈ rest.map Prod.fst := by
        simp only [List.map_cons, List.mem_cons] at h
        exact h.resolve_left fun hh => hk hh.symm
      have hne : ¬((k', v') : String × String).1 = k := hk
      rw [List.map_cons, if_neg hne, getVal_cons, if_neg hk]
      exact ih h'

/-- Updating an existing key in place leaves other keys alone. -/
theorem getVal_map_upd_ne (m : StringMap) (k k' v : String) (hne : k' ≠ k) :
    getVal (m.map (fun p => if p.1 = k' then (k', v) else p)) k = getVal m k := by
  induction m with
  | nil => rfl
  | cons p rest ih =>
    obtain ⟨k₁, v₁⟩ := p
    by_cases h1 : k₁ = k'
    · subst h1
      have hcond : ((k₁, v₁) : String × String).1 = k₁ := rfl
      rw [List.map_cons, if_pos hcond, getVal_cons, getVal_cons, if_neg hne, if_neg hne]
      exact ih
    · have hcond : ¬((k₁, v₁) : String × String).1 = k' := h1
      rw [List.map_cons, if_neg hcond, getVal_cons, getVal_cons]
      by_cases h2 : k₁ = k
      · rw [if_pos h2, if_pos h2]
      · rw [if_neg h2, if_neg h2, ih]

/-- Property assignment makes the assigned key look up to the assigned
value. -/
theorem getVal_setKey_self (m : StringMap) (k v : String) :
    getVal (setKey m k v) k = some v := by
  unfold setKey
  by_cases h : k ∈ m.map Prod.fst
  · rw [if_pos h]
    exact getVal_map_upd_self m k v h
  · rw [if_neg h, getVal_append, getVal_eq_none_of_not_mem m k h]
    simp [getVal]

/-- Property assignment leaves the other keys alone. -/
theorem getVal_setKey_ne (m : StringMap) (k k' v : String) (hne : k' ≠ k) :
    getVal (setKey m k' v) k = getVal m k := by
  unfold setKey
  by_cases h : k' ∈ m.map Prod.fst
  · rw [if_pos h]
    exact getVal_map_upd_ne m k k' v hne
  · rw [if_neg h, getVal_append]
    cases hv : getVal m k with
    | some v₁ => rfl
    | none => simp [getVal, getVal_cons, hne]

/-- `Object.assign` from a source that does not mention a key leaves that
key alone. -/
theorem getVal_objAssign_not_mem (s : StringMap) :
    ∀ (m : StringMap) (k : String), k ∉ s.map Prod.fst →
      getVal (objAssign m s) k = getVal m k := by
  induction s with
  | nil => intro m k _; rfl
  | cons p rest ih =>
    obtain ⟨k₁, v₁⟩ := p
    intro m k h
    simp only [List.map_cons, List.mem_cons, not_or] at h
    rw [objAssign_cons, ih (setKey m k₁ v₁) k h.2,
      getVal_setKey_ne m k k₁ v₁ (Ne.symm h.1)]

/-- `Object.assign` from a duplicate-free source makes every source entry
win over the target. -/
theorem getVal_objAssign_mem (s : StringMap) :
    ∀ (m : StringMap) (k v : String), (s.map Prod.fst).Nodup →
      getVal s k = some v → getVal (objAssign m s) k = some v := by
  induction s with
  | nil => intro m k v _ hv; simp [getVal] at hv
  | cons p rest ih =>
    obtain ⟨k₁, v₁⟩ := p
    intro m k v hnodup hv
    simp only [List.map_cons, List.nodup_cons] at hnodup
    by_cases hk : k₁ = k
    · subst hk
      rw [getVal_cons, if_pos rfl] at hv
      obtain rfl := Option.some_injective _ hv
      rw [objAssign_cons, getVal_objAssign_not_mem rest (setKey m k₁ v₁) k₁ hnodup.1]
      exact getVal_setKey_self m k₁ v₁
    · rw [getVal_cons, if_neg hk] at hv
      rw [objAssign_cons]
      exact ih (setKey m k₁ v₁) k v hnodup.2 hv

/-- Appending a common suffix to two strings is cancellative. -/
theorem string_append_right_cancel {s t u : String} (h : s ++ u = t ++ u) : s = t := by
  have hd : s.data ++ u.data = t.data ++ u.data := by
    have h2 := congrArg String.data h
    simpa [String.data_append] using h2
  exact String.ext (List.append_cancel_right hd)

end ExportProject

namespace ExportProject

/-- Claim C1 (counterexample): resolving the frontier [A, B] where A
declares X at 1.0.0 and B declares X at 1.0.1 does not leave X at 1.0.0;
first-write-wins fails on `getDependencies`. -/
theorem C1_counterexample_no_overwrite :
    ¬((getDependencies envLastWrite 3 [("A", "1.0.0"), ("B", "1.0.1")] []).bind
        (fun r => getVal r.deps "X") = some "1.0.0") := by
  decide

/-- Claim C1 (amended): in dependency flattening the merge uses
`Object.assign`, so a later-processed package of the frontier overwrites
the version recorded by an earlier one; the same frontier yields X at
1.0.1, the version declared by B. -/
theorem C1_amended_last_write_wins :
    (getDependencies envLastWrite 3 [("A", "1.0.0"), ("B", "1.0.1")] []).bind
        (fun r => getVal r.deps "X") = some "1.0.1" := by
  decide

/-- Claim C2: within one manifest the regular dependency entry wins the
key collision against the peer entry, both in the per-package merge of
`getDependencies` (via `processPackage`) and in the top-level production
seed of `addDependencies`. -/
theorem C2_regular_wins_over_peer (m : StringMap) (pkg : PackageJson) (k v : String)
    (hnodup : (pkg.dependencies.map Prod.fst).Nodup)
    (hv : getVal pkg.dependencies k = some v) :
    getVal (objAssign (objAssign m pkg.peerDependencies) pkg.dependencies) k = some v ∧
    (∀ (env : Env) (st : DepState) (n : String), n ∉ st.parsed →
      lookupPackage env n = some pkg →
      getVal (processPackage env st n).deps k = some v) ∧
    (match addDependencies baseEnv projC2 1 with
      | Except.ok (pr, _) => getVal pr.dependencies.production "Y"
      | Except.error _ => none) = some "1.0.0" := by
  refine ⟨getVal_objAssign_mem pkg.dependencies _ k v hnodup hv, ?_, by decide⟩
  intro env st n hn hlookup
  have hdeps : (processPackage env st n).deps =
      objAssign (objAssign st.deps pkg.peerDependencies) pkg.dependencies := by
    simp [processPackage, hn, hlookup]
  rw [hdeps]
  exact getVal_objAssign_mem pkg.dependencies _ k v hnodup hv

/-- Witness for C2 at the concrete manifest `pkgC2`. -/
theorem C2_witness :
    getVal (objAssign (objAssign [] pkgC2.peerDependencies) pkgC2.dependencies) "Y" =
      some "1.0.0" :=
  (C2_regular_wins_over_peer [] pkgC2 "Y" "1.0.0" (by decide) (by decide)).1

end ExportProject

namespace ExportProject

/-- Claim C6: the output filename replaces only the first path separator
(forward or back slash) of the manifest name with a hyphen and appends
`.project.json`; an absent name falls back to the literal `bundle`. -/
theorem C6_output_filename_derivation :
    outFileName (some "@dojo/widget-core") = "@dojo-widget-core.project.json" ∧
    outFileName none = "bundle.project.json" ∧
    outFileName (some "a/b/c") = "a-b/c.project.json" ∧
    outFileName (some "a\\b\\c") = "a-b\\c.project.json" := by
  refine ⟨by decide, by decide, by decide, by decide⟩

/-! Facts about one frontier pass of `getDependencies`. -/

/-- Fields of `processPackage` on an already-visited package. -/
theorem processPackage_fields_mem (env : Env) (st : DepState) (n : String)
    (h : n ∈ st.parsed) :
    (processPackage env st n).parsed = st.parsed ∧
    (processPackage env st n).trace = st.trace ∧
    (processPackage env st n).deps = st.deps := by
  simp [processPackage, h]

/-- Fields of `processPackage` on a not-yet-visited package: the package is
marked visited and traced, and the accumulator changes only when the
manifest lookup succeeds. -/
theorem processPackage_fields_not_mem (env : Env) (st : DepState) (n : String)
    (h : n ∉ st.parsed) :
    (processPackage env st n).parsed = st.parsed ++ [n] ∧
    (processPackage env st n).trace = st.trace ++ [n] ∧
    ((processPackage env st n).deps = st.deps ∨ (lookupPackage env n).isSome) := by
  cases hl : lookupPackage env n with
  | none => simp [processPackage, h, hl]
  | some pkg => simp [processPackage, h, hl]

/-- The frontier fold visits each package at most once: the visited set
grows by exactly the duplicate-free trace of fresh names, and the local
accumulator becomes non-empty only through a successful lookup of a fresh
name. -/
theorem depFold_inv (env : Env) (l : List (String × String)) :
    ∀ st : DepState,
      ∃ t : List String,
        (List.foldl (fun s p => processPackage env s p.1) st l).parsed = st.parsed ++ t ∧
        (List.foldl (fun s p => processPackage env s p.1) st l).trace = st.trace ++ t ∧
        t.Nodup ∧ (∀ n ∈ t, n ∉ st.parsed) ∧
        ((List.foldl (fun s p => processPackage env s p.1) st l).deps ≠ [] →
          st.deps ≠ [] ∨ ∃ n, n ∈ t ∧ (lookupPackage env n).isSome) := by
  induction l with
  | nil =>
    intro st
    exact ⟨[], by simp, by simp, List.nodup_nil, by simp, fun h => Or.inl h⟩
  | cons p l ih =>
    intro st
    rw [List.foldl_cons]
    by_cases h : p.1 ∈ st.parsed
    · obtain ⟨hparsed, htrace, hdeps⟩ := processPackage_fields_mem env st p.1 h
      obtain ⟨t, h1, h2, h3, h4, h5⟩ := ih (processPackage env st p.1)
      refine ⟨t, ?_, ?_, h3, ?_, ?_⟩
      · rw [h1, hparsed]
      · rw [h2, htrace]
      · intro n hn
        have := h4 n hn
        rwa [hparsed] at this
      · intro hne
        rcases h5 hne with h5a | h5b
        · rw [hdeps] at h5a
          exact Or.inl h5a
        · exact Or.inr h5b
    · obtain ⟨hparsed, htrace, hdeps⟩ := processPackage_fields_not_mem env st p.1 h
      obtain ⟨t, h1, h2, h3, h4, h5⟩ := ih (processPackage env st p.1)
      refine ⟨p.1 :: t, ?_, ?_, ?_, ?_, ?_⟩
      · rw [h1, hparsed]
        simp
      · rw [h2, htrace]
        simp
      · refine List.nodup_cons.mpr ⟨fun hmem => ?_, h3⟩
        have := h4 p.1 hmem
        rw [hparsed] at this
        exact this (by simp)
      · intro n hn
        rcases List.mem_cons.mp hn with rfl | hn'
        · exact h
        · have := h4 n hn'
          rw [hparsed] at this
          exact fun hc => this (List.mem_append_left _ hc)
      · intro hne
        rcases h5 hne with h5a | ⟨n, hn, hsome⟩
        · rcases hdeps with hdeps | hsome'
          · rw [hdeps] at h5a
            exact Or.inl h5a
          · exact Or.inr ⟨p.1, List.mem_cons_self _ _, hsome'⟩
        · exact Or.inr ⟨n, List.mem_cons_of_mem _ hn, hsome⟩

/-- Specialisation of `depFold_inv` to a full frontier pass. -/
theorem depPass_inv (env : Env) (l : List (String × String)) (parsed : List String) :
    ∃ t : List String,
      (depPass env l parsed).parsed = parsed ++ t ∧
      (depPass env l parsed).trace = t ∧
      t.Nodup ∧ (∀ n ∈ t, n ∉ parsed) ∧
      ((depPass env l parsed).deps ≠ [] → ∃ n, n ∈ t ∧ (lookupPackage env n).isSome) := by
  obtain ⟨t, h1, h2, h3, h4, h5⟩ := depFold_inv env l ⟨[], parsed, [], []⟩
  refine ⟨t, h1, by simpa using h2, h3, h4, fun hne => ?_⟩
  rcases h5 hne with h5a | h5b
  · exact absurd rfl h5a
  · exact h5b

/-- Visiting at least one fresh registry package strictly shrinks the set
of registry packages that are still unvisited. -/
theorem remaining_lt (R parsed t : List String) (n : String)
    (hnR : n ∈ R) (hnp : n ∉ parsed) (hnt : n ∈ t) :
    (R.filter fun m => decide (m ∉ parsed ++ t)).length <
      (R.filter fun m => decide (m ∉ parsed)).length := by
  have hsub : List.Sublist (R.filter fun m => decide (m ∉ parsed ++ t))
      (R.filter fun m => decide (m ∉ parsed)) := by
    refine List.monotone_filter_right R ?_
    intro a ha
    simp only [decide_eq_true_eq] at ha ⊢
    exact fun hc => ha (List.mem_append_left _ hc)
  refine Nat.lt_of_le_of_ne (List.Sublist.length_le hsub) fun heq => ?_
  have hlists := List.Sublist.eq_of_length hsub heq
  have hmem1 : n ∈ R.filter (fun m => decide (m ∉ parsed)) :=
    List.mem_filter.mpr ⟨hnR, by simp [hnp]⟩
  rw [← hlists] at hmem1
  have hmem2 := List.mem_filter.mp hmem1
  simp only [decide_eq_true_eq] at hmem2
  exact hmem2.2 (List.mem_append_right _ hnt)

/-- Claim C3: for every dependency graph whose resolvable package names lie
in a finite registry list R (including cyclic graphs such as A→B→A),
`getDependencies` completes within fuel exceeding the number of unvisited
registry packages — the unbounded source recursion terminates — and the
trace of packages whose manifest is actually resolved is duplicate-free:
the shared visited set is checked before and marked on every visit. -/
theorem C3_cycle_safe (env : Env) (R : List String)
    (hreg : ∀ n, (lookupPackage env n).isSome → n ∈ R) :
    ∀ (fuel : Nat) (packages : StringMap) (parsed : List String),
      (R.filter fun m => decide (m ∉ parsed)).length < fuel →
      ∃ r, getDependencies env fuel packages parsed = some r ∧
        r.trace.Nodup ∧ r.parsed = parsed ++ r.trace ∧ ∀ n ∈ r.trace, n ∉ parsed := by
  intro fuel
  induction fuel with
  | zero => intro _ _ h; omega
  | succ fuel ih =>
    intro packages parsed hfuel
    obtain ⟨t, h1, h2, h3, h4, h5⟩ := depPass_inv env packages parsed
    cases hdeps : (depPass env packages parsed).deps.isEmpty with
    | true =>
      refine ⟨⟨(depPass env packages parsed).deps, (depPass env packages parsed).parsed,
        (depPass env packages parsed).trace, (depPass env packages parsed).log⟩, ?_, ?_, ?_, ?_⟩
      · simp only [getDependencies, hdeps, if_true]
      · rw [h2]
        exact h3
      · rw [h1, h2]
      · intro m hm
        rw [h2] at hm
        exact h4 m hm
    | false =>
      have hne : (depPass env packages parsed).deps ≠ [] := by
        intro hc
        rw [hc] at hdeps
        simp at hdeps
      obtain ⟨n, hn, hsome⟩ := h5 hne
      have hnR := hreg n hsome
      have hnp := h4 n hn
      have hlt : (R.filter fun m =>
          decide (m ∉ (depPass env packages parsed).parsed)).length <
          (R.filter fun m => decide (m ∉ parsed)).length := by
        rw [h1]
        exact remaining_lt R parsed t n hnR hnp hn
      have hfuel' : (R.filter fun m =>
          decide (m ∉ (depPass env packages parsed).parsed)).length < fuel := by
        omega
      obtain ⟨r', hr', hr'nodup, hr'parsed, hr'fresh⟩ :=
        ih (depPass env packages parsed).deps (depPass env packages parsed).parsed hfuel'
      refine ⟨⟨objAssign (depPass env packages parsed).deps r'.deps, r'.parsed,
        (depPass env packages parsed).trace ++ r'.trace,
        (depPass env packages parsed).log ++ r'.log⟩, ?_, ?_, ?_, ?_⟩
      · simp only [getDependencies, hdeps, Bool.false_eq_true, if_false, hr']
      · rw [h2]
        refine List.nodup_append.mpr ⟨h3, hr'nodup, ?_⟩
        intro a hat har
        have hfr := hr'fresh a har
        rw [h1] at hfr
        exact hfr (List.mem_append_right _ hat)
      · rw [hr'parsed, h1, h2]
        simp [List.append_assoc]
      · intro m hm
        rw [h2] at hm
        rcases List.mem_append.mp hm with hm | hm
        · exact h4 m hm
        · have hfr := hr'fresh m hm
          rw [h1] at hfr
          exact fun hc => hfr (List.mem_append_left _ hc)

/-- The cyclic registry resolves manifests only for the names A and B. -/
theorem envCyclic_registry :
    ∀ n, (lookupPackage envCyclic n).isSome → n ∈ ["A", "B"] := by
  intro n h
  simp only [lookupPackage, envCyclic, baseEnv, Option.bind] at h
  split_ifs at h with hA hB
  · have hlitA : ("A" : String) ++ ("/" ++ "package.json") = "A/package.json" := by decide
    rw [← hlitA] at hA
    have hn : n = "A" := string_append_right_cancel hA
    simp [hn]
  · have hlitB : ("B" : String) ++ ("/" ++ "package.json") = "B/package.json" := by decide
    rw [← hlitB] at hB
    have hn : n = "B" := string_append_right_cancel hB
    simp [hn]
  · simp at h

/-- Witness for C3 at the cyclic registry A→B→A. -/
theorem C3_witness :
    ∃ r, getDependencies envCyclic 3 [("A", "1.0.0")] [] = some r ∧
      r.trace.Nodup ∧ r.parsed = [] ++ r.trace ∧ ∀ n ∈ r.trace, n ∉ ([] : List String) :=
  C3_cycle_safe envCyclic ["A", "B"] envCyclic_registry 3 [("A", "1.0.0")] [] (by decide)

end ExportProject

namespace ExportProject

/-- Claim C4: when the working directory contains neither `package.json`
nor `tsconfig.json`, the run fails with the error naming the current
working directory and both required files, recovered at the single
top-level handler as an always-visible log line, and no output file is
written; conversely an output file is written only when both required
files exist. -/
theorem C4_missing_required_files (env : Env) (args : ExportArgs) (fuel : Nat) :
    (env.fileExists "package.json" = false → env.fileExists "tsconfig.json" = false →
      (exportProject env args fuel).written = [] ∧
      (⟨LogLevel.always, "errored " ++ missingFilesError env⟩ : LogEntry) ∈
        (exportProject env args fuel).log) ∧
    ((exportProject env args fuel).written ≠ [] →
      env.fileExists "package.json" = true ∧ env.fileExists "tsconfig.json" = true) := by
  constructor
  · intro h1 h2
    have hcp : createProject env = Except.error (missingFilesError env) := by
      simp [createProject, h1]
    have hpl : exportPipeline env args fuel = Except.error (missingFilesError env) := by
      simp [exportPipeline, hcp]
    constructor
    · simp [exportProject, hpl]
    · by_cases hc : env.projectCwd = env.initialCwd <;> simp [exportProject, hpl, hc]
  · intro hw
    constructor
    · cases hp : env.fileExists "package.json" with
      | true => rfl
      | false =>
        exfalso
        apply hw
        have hcp : createProject env = Except.error (missingFilesError env) := by
          simp [createProject, hp]
        simp [exportProject, exportPipeline, hcp]
    · cases ht : env.fileExists "tsconfig.json" with
      | true => rfl
      | false =>
        exfalso
        apply hw
        have hcp : createProject env = Except.error (missingFilesError env) := by
          simp [createProject, ht]
        simp [exportProject, exportPipeline, hcp]

/-- Witness for C4 at an environment with no files at all. -/
theorem C4_witness :
    (exportProject baseEnv {} 1).written = [] ∧
    (⟨LogLevel.always, "errored " ++ missingFilesError baseEnv⟩ : LogEntry) ∈
      (exportProject baseEnv {} 1).log :=
  (C4_missing_required_files baseEnv {} 1).1 rfl rfl

end ExportProject

namespace ExportProject

/-- Entries of `dependsLogs` are all on the verbose channel. -/
theorem dependsLogs_verbose (pkg : PackageJson) :
    ∀ e ∈ dependsLogs pkg, e.level = LogLevel.verbose := by
  intro e he
  unfold dependsLogs at he
  rcases List.mem_append.mp he with he | he
  · split at he
    · simp at he
    · simp only [List.mem_singleton] at he
      subst he
      rfl
  · split at he
    · simp at he
    · simp only [List.mem_singleton] at he
      subst he
      rfl

/-- Every console line added by `processPackage` is on the verbose
channel. -/
theorem processPackage_log_verbose (env : Env) (st : DepState) (n : String) :
    ∀ e ∈ (processPackage env st n).log, e ∈ st.log ∨ e.level = LogLevel.verbose := by
  intro e he
  by_cases h : n ∈ st.parsed
  · simp [processPackage, h] at he
    rcases he with he | he
    · exact Or.inl he
    · exact Or.inr (by rw [he])
  · cases hl : lookupPackage env n with
    | none =>
      simp [processPackage, h, hl] at he
      rcases he with he | he | he
      · exact Or.inl he
      · exact Or.inr (by rw [he])
      · exact Or.inr (by rw [he])
    | some pkg =>
      simp [processPackage, h, hl] at he
      rcases he with he | he | he
      · exact Or.inl he
      · exact Or.inr (by rw [he])
      · exact Or.inr (dependsLogs_verbose pkg e he)

/-- Every console line added by a frontier fold is on the verbose
channel. -/
theorem depFold_log_verbose (env : Env) (l : List (String × String)) :
    ∀ st : DepState,
      ∀ e ∈ (List.foldl (fun s p => processPackage env s p.1) st l).log,
        e ∈ st.log ∨ e.level = LogLevel.verbose := by
  induction l with
  | nil => intro st e he; exact Or.inl he
  | cons p l ih =>
    intro st e he
    rcases ih (processPackage env st p.1) e he with hmem | hv
    · exact processPackage_log_verbose env st p.1 e hmem
    · exact Or.inr hv

/-- Every console line of a whole `getDependencies` run is on the verbose
channel. -/
theorem getDependencies_log_verbose (env : Env) :
    ∀ (fuel : Nat) (packages : StringMap) (parsed : List String) (r : DepResult),
      getDependencies env fuel packages parsed = some r →
      ∀ e ∈ r.log, e.level = LogLevel.verbose := by
  intro fuel
  induction fuel with
  | zero => intro _ _ r h; simp [getDependencies] at h
  | succ fuel ih =>
    intro packages parsed r h e he
    cases hdeps : (depPass env packages parsed).deps.isEmpty with
    | true =>
      simp only [getDependencies, hdeps, if_true] at h
      injection h with h2
      subst h2
      change e ∈ (depPass env packages parsed).log at he
      rcases depFold_log_verbose env packages ⟨[], parsed, [], []⟩ e he with hmem | hv
      · simp at hmem
      · exact hv
    | false =>
      simp only [getDependencies, hdeps, Bool.false_eq_true, if_false] at h
      cases hrec : getDependencies env fuel (depPass env packages parsed).deps
          (depPass env packages parsed).parsed with
      | none =>
        rw [hrec] at h
        simp at h
      | some r' =>
        rw [hrec] at h
        injection h with h2
        subst h2
        change e ∈ (depPass env packages parsed).log ++ r'.log at he
        rcases List.mem_append.mp he with hm | hm
        · rcases depFold_log_verbose env packages ⟨[], parsed, [], []⟩ e hm with hmem | hv
          · simp at hmem
          · exact hv
        · exact ih (depPass env packages parsed).deps (depPass env packages parsed).parsed r' hrec e hm

/-- Claim C8: a failure to locate or parse a dependency manifest is never
fatal: the affected package is skipped with the accumulator unchanged
while it is still marked visited (so resolution continues with the
remaining frontier packages), the only console output of the whole
resolution run is on the verbose channel, and the dependency phase of the
pipeline can fail only through the fuel artifact of the embedding, never
through a lookup error. -/
theorem C8_lookup_failures_nonfatal (env : Env) :
    (∀ (st : DepState) (n : String), n ∉ st.parsed → lookupPackage env n = none →
      (processPackage env st n).deps = st.deps ∧
      (processPackage env st n).parsed = st.parsed ++ [n] ∧
      (processPackage env st n).log = st.log ++
        [⟨LogLevel.verbose, "resolving dependencies for package \"" ++ n ++ "\""⟩,
         ⟨LogLevel.verbose, "missing \"" ++ joinPath n "package.json" ++ "\""⟩]) ∧
    (∀ (fuel : Nat) (packages : StringMap) (parsed : List String) (r : DepResult),
      getDependencies env fuel packages parsed = some r →
      ∀ e ∈ r.log, e.level = LogLevel.verbose) ∧
    (∀ (p : ProjectJson) (fuel : Nat) (e : String),
      addDependencies env p fuel = Except.error e → e = "insufficient recursion fuel") := by
  refine ⟨?_, getDependencies_log_verbose env, ?_⟩
  · intro st n hn hl
    refine ⟨?_, ?_, ?_⟩ <;> simp [processPackage, hn, hl]
  · intro p fuel e h
    unfold addDependencies at h
    cases h1 : getDependencies env fuel
        (objAssign (objAssign p.dependencies.production p.package.peerDependencies)
          p.package.dependencies) [] with
    | none =>
      simp only [h1] at h
      injection h with h2
      exact h2.symm
    | some r =>
      simp only [h1] at h
      cases h2 : getDependencies env fuel
          (objAssign p.dependencies.development p.package.devDependencies) [] with
      | none =>
        simp only [h2] at h
        injection h with h3
        exact h3.symm
      | some r2 =>
        simp only [h2] at h
        simp at h

/-- Witness for C8: in a frontier [A, missing, B] where the middle package
fails to resolve, the skip leaves the accumulator alone and the run still
picks up the dependency declared by B. -/
theorem C8_witness :
    (processPackage envC8 ⟨[("X", "1.0.0")], ["A"], ["A"], []⟩ "missing").deps =
      [("X", "1.0.0")] ∧
    (processPackage envC8 ⟨[("X", "1.0.0")], ["A"], ["A"], []⟩ "missing").parsed =
      ["A"] ++ ["missing"] ∧
    (getDependencies envC8 3 [("A", "1.0.0"), ("missing", "1.0.0"), ("B", "1.0.0")] []).bind
      (fun r => getVal r.deps "Z") = some "2.0.0" := by
  have h := (C8_lookup_failures_nonfatal envC8).1 ⟨[("X", "1.0.0")], ["A"], ["A"], []⟩
    "missing" (by decide) (by decide)
  exact ⟨h.1, h.2.1, by decide⟩

end ExportProject

namespace ExportProject

/-- Claim C9: for a requested types package whose manifest has neither a
truthy `typings` nor a truthy `types` field, the phase appends the
manifest JSON entry, emits an always-visible warning naming the package
manifest path, and then tries the `<entry>/index.d.ts` fallback: a
fallback resolve or read failure is swallowed (the package is given up on
with no further file and no error), while a fallback success appends that
file with the default Definition kind. -/
theorem C9_missing_types_warning (env : Env) (p : ProjectJson) (n rp text : String)
    (pkg : PackageJson)
    (hres : env.resolve (joinPath n "package.json") = some rp)
    (hread : env.readFile (relPath env.projectCwd rp) = some text)
    (hparse : env.parsePackage text = some pkg)
    (hnotypes : jsStringOr pkg.typings pkg.types = none) :
    (env.resolve (normalizePath (joinPath n "index.d.ts")) = none →
      addTypesForPackage env p n = Except.ok
        ({ p with environmentFiles := p.environmentFiles ++
            [createProjectFile (relPath env.projectCwd rp) (env.stringifyPackage pkg)
              ProjectFileType.JSON] },
         [⟨LogLevel.verbose, "resolving types for package \"" ++ n ++ "\""⟩,
          ⟨LogLevel.always,
            "warn \"" ++ relPath env.projectCwd rp ++ "\" does not contain type information"⟩])) ∧
    (∀ r2, env.resolve (normalizePath (joinPath n "index.d.ts")) = some r2 →
      env.readFile (relPath env.projectCwd r2) = none →
      addTypesForPackage env p n = Except.ok
        ({ p with environmentFiles := p.environmentFiles ++
            [createProjectFile (relPath env.projectCwd rp) (env.stringifyPackage pkg)
              ProjectFileType.JSON] },
         [⟨LogLevel.verbose, "resolving types for package \"" ++ n ++ "\""⟩,
          ⟨LogLevel.always,
            "warn \"" ++ relPath env.projectCwd rp ++ "\" does not contain type information"⟩])) ∧
    (∀ r2 t2, env.resolve (normalizePath (joinPath n "index.d.ts")) = some r2 →
      env.readFile (relPath env.projectCwd r2) = some t2 →
      addTypesForPackage env p n = Except.ok
        ({ p with environmentFiles := p.environmentFiles ++
            [createProjectFile (relPath env.projectCwd rp) (env.stringifyPackage pkg)
              ProjectFileType.JSON,
             createProjectFile (relPath env.projectCwd r2) t2] },
         [⟨LogLevel.verbose, "resolving types for package \"" ++ n ++ "\""⟩,
          ⟨LogLevel.always,
            "warn \"" ++ relPath env.projectCwd rp ++ "\" does not contain type information"⟩,
          ⟨LogLevel.verbose, "adding type file \"" ++ relPath env.projectCwd r2 ++ "\""⟩])) := by
  refine ⟨?_, ?_, ?_⟩
  · intro hfb
    simp [addTypesForPackage, hres, hread, hparse, hnotypes, hfb]
  · intro r2 hfb hfr
    simp [addTypesForPackage, hres, hread, hparse, hnotypes, hfb, hfr]
  · intro r2 t2 hfb hfr
    simp [addTypesForPackage, hres, hread, hparse, hnotypes, hfb, hfr]

/-- Witness for C9 at the package baz with an empty manifest and a failing
fallback. -/
theorem C9_witness :
    addTypesForPackage envC9 emptyProject "baz" = Except.ok
      ({ emptyProject with environmentFiles :=
          emptyProject.environmentFiles ++
            [createProjectFile (relPath envC9.projectCwd "baz/package.json")
              (envC9.stringifyPackage {}) ProjectFileType.JSON] },
       [⟨LogLevel.verbose, "resolving types for package \"baz\""⟩,
        ⟨LogLevel.always,
          "warn \"" ++ relPath envC9.projectCwd "baz/package.json" ++
            "\" does not contain type information"⟩]) :=
  (C9_missing_types_warning envC9 emptyProject "baz" "baz/package.json"
    "baz/package.json" {} (by decide) (by decide) (by decide) rfl).1 (by decide)

end ExportProject

namespace ExportProject

/-- Claim C10: when a requested types package declares a truthy
`typings`/`types` entry point, a failure to resolve or read that entry
point is not caught inside the phase: `addTypesForPackage` rejects, the
rejection propagates through `addTypesFiles` and the concurrent join to
the single top-level handler, and the run ends with an always-visible
errored line and no written output — in contrast with the swallowed
`index.d.ts` fallback failures. -/
theorem C10_declared_typings_failure_fatal (env : Env) :
    (∀ (p : ProjectJson) (n rp text tp : String) (pkg : PackageJson),
      env.resolve (joinPath n "package.json") = some rp →
      env.readFile (relPath env.projectCwd rp) = some text →
      env.parsePackage text = some pkg →
      jsStringOr pkg.typings pkg.types = some tp →
      ((env.resolve (normalizePath (joinPath n tp)) = none →
        addTypesForPackage env p n =
          Except.error ("error resolving \"" ++ normalizePath (joinPath n tp) ++ "\"")) ∧
       (∀ r2, env.resolve (normalizePath (joinPath n tp)) = some r2 →
        env.readFile (relPath env.projectCwd r2) = none →
        addTypesForPackage env p n =
          Except.error ("error reading \"" ++ relPath env.projectCwd r2 ++ "\"")))) ∧
    (∀ (p : ProjectJson) (n : String) (rest : List String) (e : String),
      addTypesForPackage env p n = Except.error e →
      addTypesFilesList env p (n :: rest) = Except.error e) ∧
    (∀ (p : ProjectJson) (co : CompilerOptions) (ts : List String) (e : String),
      p.tsconfig.compilerOptions = some co → co.types = some ts →
      addTypesFilesList env p ts = Except.error e →
      addTypesFiles env p = Except.error e) ∧
    (∀ (args : ExportArgs) (fuel : Nat) (p0 p1 : ProjectJson)
        (lc l1 : List LogEntry) (e : String),
      createProject env = Except.ok (p0, lc) →
      addLibFiles env p0 = Except.ok (p1, l1) →
      addTypesFiles env p1 = Except.error e →
      (exportProject env args fuel).written = [] ∧
      (⟨LogLevel.always, "errored " ++ e⟩ : LogEntry) ∈ (exportProject env args fuel).log) := by
  refine ⟨?_, ?_, ?_, ?_⟩
  · intro p n rp text tp pkg hres hread hparse htp
    constructor
    · intro hfb
      simp [addTypesForPackage, hres, hread, hparse, htp, hfb]
    · intro r2 hfb hfr
      simp [addTypesForPackage, hres, hread, hparse, htp, hfb, hfr]
  · intro p n rest e h
    simp [addTypesFilesList, h]
  · intro p co ts e h1 h2 h3
    simp [addTypesFiles, h1, h2, h3]
  · intro args fuel p0 p1 lc l1 e hc hl ht
    have hg : gatherPhases env args fuel p0 = Except.error e := by
      simp [gatherPhases, hl, ht]
    have hpl : exportPipeline env args fuel = Except.error e := by
      simp [exportPipeline, hc, hg]
    constructor
    · simp [exportProject, hpl]
    · by_cases hcwd : env.projectCwd = env.initialCwd <;> simp [exportProject, hpl, hcwd]

/-- Witness for C10: the package foo declares `typings: "foo.d.ts"` whose
read fails; the whole run aborts with no written output. -/
theorem C10_witness :
    (exportProject envC10 {} 1).written = [] ∧
    (⟨LogLevel.always,
      "errored " ++ "error reading \"node_modules/foo/foo.d.ts\""⟩ : LogEntry) ∈
      (exportProject envC10 {} 1).log :=
  (C10_declared_typings_failure_fatal envC10).2.2.2 {} 1 projC10 projC10
    [⟨LogLevel.verbose, "reading \"package.json\""⟩,
     ⟨LogLevel.verbose, "reading \"tsconfig.json\""⟩] []
    "error reading \"node_modules/foo/foo.d.ts\"" (by decide) (by decide) (by decide)

end ExportProject

namespace ExportProject

/-- A successful file-reading pass appends exactly one entry per matched
name, in match order, with the file contents and the extension-based
classification. -/
theorem readProjectFiles_files (env : Env) :
    ∀ (names : List String) (p p' : ProjectJson) (logs : List LogEntry),
      readProjectFiles env p names = Except.ok (p', logs) →
      p'.files = p.files ++ names.map (fun n =>
        { name := n, text := (env.readFile n).getD "", type := getProjectFileType n }) := by
  intro names
  induction names with
  | nil =>
    intro p p' logs h
    simp only [readProjectFiles, Except.ok.injEq, Prod.mk.injEq] at h
    rw [← h.1]
    simp
  | cons n rest ih =>
    intro p p' logs h
    cases hr : env.readFile n with
    | none =>
      simp only [readProjectFiles, hr] at h
      exact Except.noConfusion h
    | some t =>
      simp only [readProjectFiles, hr] at h
      cases hrec : readProjectFiles env
          { p with files := p.files ++ [{ name := n, text := t, type := getProjectFileType n }] }
          rest with
      | error e =>
        rw [hrec] at h
        exact Except.noConfusion h
      | ok pr =>
        obtain ⟨p'', logs'⟩ := pr
        rw [hrec] at h
        simp only [Except.ok.injEq, Prod.mk.injEq] at h
        have hfiles := ih _ p'' logs' hrec
        rw [← h.1, hfiles]
        simp [hr]

/-- Claim C7: the file collector is a no-op when the compiler configuration
has no `include` list; otherwise it rewrites each pattern by replacing a
trailing `.ts` or `.d.ts` with the brace expansion of the extension
allow-list (default `ts,html,css,json,xml,md`), globs each rewritten
pattern, concatenates the matches of the patterns without removing
cross-pattern duplicates, and reads and classifies every matched file in
match order. -/
theorem C7_include_collection (env : Env) (exts : String) :
    (∀ p : ProjectJson, p.tsconfig.«include» = none →
      addProjectFiles env p exts = Except.ok (p, [])) ∧
    (∀ (pat1 pat2 : String) (m1 m2 : List String),
      env.globMatch (rewritePattern pat1 exts) = some m1 →
      env.globMatch (rewritePattern pat2 exts) = some m2 →
      globAll env ([pat1, pat2].map (fun pat => rewritePattern pat exts)) =
        Except.ok (m1 ++ m2)) ∧
    (∀ (names : List String) (p p' : ProjectJson) (logs : List LogEntry),
      readProjectFiles env p names = Except.ok (p', logs) →
      p'.files = p.files ++ names.map (fun n =>
        { name := n, text := (env.readFile n).getD "", type := getProjectFileType n })) ∧
    (∀ (p : ProjectJson) (pats names : List String),
      p.tsconfig.«include» = some pats →
      globAll env (pats.map (fun pat => rewritePattern pat exts)) = Except.ok names →
      addProjectFiles env p exts = readProjectFiles env p names) ∧
    (rewritePattern "src/**/*.ts" defaultIncludeExtensions =
        "src/**/*.\x7bts,html,css,json,xml,md\x7d" ∧
      rewritePattern "src/**/*.d.ts" defaultIncludeExtensions =
        "src/**/*.\x7bts,html,css,json,xml,md\x7d" ∧
      rewritePattern "src/page.html" defaultIncludeExtensions = "src/page.html") := by
  refine ⟨?_, ?_, readProjectFiles_files env, ?_, by decide, by decide, by decide⟩
  · intro p h
    simp [addProjectFiles, h]
  · intro pat1 pat2 m1 m2 h1 h2
    simp [globAll, h1, h2]
  · intro p pats names h1 h2
    simp [addProjectFiles, h1, h2]

/-- Witness for C7: the same pattern listed twice contributes its match
twice, and the duplicated file is read and classified twice. -/
theorem C7_witness :
    globAll envC7 (["src/**/*.ts", "src/**/*.ts"].map
        (fun pat => rewritePattern pat defaultIncludeExtensions)) =
      Except.ok ["src/a.ts", "src/a.ts"] ∧
    projC7.files = emptyProject.files ++ ["src/a.ts", "src/a.ts"].map (fun n =>
      { name := n, text := (envC7.readFile n).getD "", type := getProjectFileType n }) := by
  have h := C7_include_collection envC7 defaultIncludeExtensions
  refine ⟨?_, ?_⟩
  · have hg := h.2.1 "src/**/*.ts" "src/**/*.ts" ["src/a.ts"] ["src/a.ts"]
      (by decide) (by decide)
    simpa using hg
  · exact h.2.2.1 ["src/a.ts", "src/a.ts"] emptyProject projC7
      [⟨LogLevel.verbose, "adding project file \"src/a.ts\""⟩,
       ⟨LogLevel.verbose, "adding project file \"src/a.ts\""⟩] (by decide)

end ExportProject

namespace ExportProject

/-! Frame facts: no gathering phase writes the `index` field. -/

/-- The lib-file loop never touches the index field. -/
theorem addLibFilesList_index (env : Env) :
    ∀ (libs : List String) (p p' : ProjectJson) (l : List LogEntry),
      addLibFilesList env p libs = Except.ok (p', l) → p'.index = p.index := by
  intro libs
  induction libs with
  | nil =>
    intro p p' l h
    simp only [addLibFilesList, Except.ok.injEq, Prod.mk.injEq] at h
    rw [← h.1]
  | cons lib rest ih =>
    intro p p' l h
    simp only [addLibFilesList] at h
    cases hr : env.readFile ("node_modules/typescript/lib/" ++ ("lib." ++ lib ++ ".d.ts")) with
    | none =>
      simp only [hr] at h
      exact Except.noConfusion h
    | some text =>
      simp only [hr] at h
      cases hrec : addLibFilesList env
          { p with environmentFiles := p.environmentFiles ++
              [createProjectFile ("lib." ++ lib ++ ".d.ts") text ProjectFileType.Lib] } rest with
      | error e =>
        simp only [hrec] at h
        exact Except.noConfusion h
      | ok pr =>
        obtain ⟨p'', logs⟩ := pr
        have hx := ih _ p'' logs hrec
        simp only [hrec, Except.ok.injEq, Prod.mk.injEq] at h
        rw [← h.1]
        exact hx

/-- The lib-file phase never touches the index field. -/
theorem addLibFiles_index (env : Env) (p p' : ProjectJson) (l : List LogEntry)
    (h : addLibFiles env p = Except.ok (p', l)) : p'.index = p.index := by
  unfold addLibFiles at h
  split at h
  · simp only [Except.ok.injEq, Prod.mk.injEq] at h
    rw [← h.1]
  · split at h
    · simp only [Except.ok.injEq, Prod.mk.injEq] at h
      rw [← h.1]
    · rename_i libs hlibs
      exact addLibFilesList_index env libs p p' l h

/-- The per-package types task never touches the index field. -/
theorem addTypesForPackage_index (env : Env) (p : ProjectJson) (n : String)
    (p' : ProjectJson) (l : List LogEntry)
    (h : addTypesForPackage env p n = Except.ok (p', l)) : p'.index = p.index := by
  unfold addTypesForPackage at h
  cases h1 : env.resolve (joinPath n "package.json") with
  | none =>
    simp only [h1] at h
    exact Except.noConfusion h
  | some rp =>
    simp only [h1] at h
    cases h2 : env.readFile (relPath env.projectCwd rp) with
    | none =>
      simp only [h2] at h
      exact Except.noConfusion h
    | some text =>
      simp only [h2] at h
      cases h3 : env.parsePackage text with
      | none =>
        simp only [h3] at h
        exact Except.noConfusion h
      | some pkg =>
        simp only [h3] at h
        cases h4 : jsStringOr pkg.typings pkg.types with
        | some tp =>
          simp only [h4] at h
          cases h5 : env.resolve (normalizePath (joinPath n tp)) with
          | none =>
            simp only [h5] at h
            exact Except.noConfusion h
          | some r2 =>
            simp only [h5] at h
            cases h6 : env.readFile (relPath env.projectCwd r2) with
            | none =>
              simp only [h6] at h
              exact Except.noConfusion h
            | some t2 =>
              simp only [h6, Except.ok.injEq, Prod.mk.injEq] at h
              rw [← h.1]
        | none =>
          simp only [h4] at h
          cases h5 : env.resolve (normalizePath (joinPath n "index.d.ts")) with
          | none =>
            simp only [h5, Except.ok.injEq, Prod.mk.injEq] at h
            rw [← h.1]
          | some r2 =>
            simp only [h5] at h
            cases h6 : env.readFile (relPath env.projectCwd r2) with
            | none =>
              simp only [h6, Except.ok.injEq, Prod.mk.injEq] at h
              rw [← h.1]
            | some t2 =>
              simp only [h6, Except.ok.injEq, Prod.mk.injEq] at h
              rw [← h.1]

/-- The per-package types loop never touches the index field. -/
theorem addTypesFilesList_index (env : Env) :
    ∀ (ts : List String) (p p' : ProjectJson) (l : List LogEntry),
      addTypesFilesList env p ts = Except.ok (p', l) → p'.index = p.index := by
  intro ts
  induction ts with
  | nil =>
    intro p p' l h
    simp only [addTypesFilesList, Except.ok.injEq, Prod.mk.injEq] at h
    rw [← h.1]
  | cons n rest ih =>
    intro p p' l h
    simp only [addTypesFilesList] at h
    cases h1 : addTypesForPackage env p n with
    | error e =>
      simp only [h1] at h
      exact Except.noConfusion h
    | ok pr =>
      obtain ⟨p1, logs1⟩ := pr
      simp only [h1] at h
      cases h2 : addTypesFilesList env p1 rest with
      | error e =>
        simp only [h2] at h
        exact Except.noConfusion h
      | ok pr2 =>
        obtain ⟨p2, logs2⟩ := pr2
        simp only [h2, Except.ok.injEq, Prod.mk.injEq] at h
        rw [← h.1, ih p1 p2 logs2 h2]
        exact addTypesForPackage_index env p n p1 logs1 h1

/-- The types phase never touches the index field. -/
theorem addTypesFiles_index (env : Env) (p p' : ProjectJson) (l : List LogEntry)
    (h : addTypesFiles env p = Except.ok (p', l)) : p'.index = p.index := by
  unfold addTypesFiles at h
  split at h
  · simp only [Except.ok.injEq, Prod.mk.injEq] at h
    rw [← h.1]
  · split at h
    · simp only [Except.ok.injEq, Prod.mk.injEq] at h
      rw [← h.1]
    · rename_i ts hts
      exact addTypesFilesList_index env ts p p' l h

/-- The auto-discovered definitions loop never touches the index field. -/
theorem addDefinitionFilesList_index (env : Env) :
    ∀ (files : List String) (p p' : ProjectJson) (l : List LogEntry),
      addDefinitionFilesList env p files = Except.ok (p', l) → p'.index = p.index := by
  intro files
  induction files with
  | nil =>
    intro p p' l h
    simp only [addDefinitionFilesList, Except.ok.injEq, Prod.mk.injEq] at h
    rw [← h.1]
  | cons f rest ih =>
    intro p p' l h
    simp only [addDefinitionFilesList] at h
    split at h
    · exact ih p p' l h
    · cases hr : env.readFile f with
      | none =>
        simp only [hr] at h
        exact Except.noConfusion h
      | some text =>
        simp only [hr] at h
        cases hrec : addDefinitionFilesList env
            { p with environmentFiles := p.environmentFiles ++ [createProjectFile f text] }
            rest with
        | error e =>
          simp only [hrec] at h
          exact Except.noConfusion h
        | ok pr =>
          obtain ⟨p'', logs⟩ := pr
          have hx := ih _ p'' logs hrec
          simp only [hrec, Except.ok.injEq, Prod.mk.injEq] at h
          rw [← h.1]
          exact hx

/-- The auto-discovered definitions phase never touches the index field. -/
theorem addDefinitionFiles_index (env : Env) (p p' : ProjectJson) (l : List LogEntry)
    (h : addDefinitionFiles env p = Except.ok (p', l)) : p'.index = p.index := by
  unfold addDefinitionFiles at h
  cases hg : env.globMatch dojoDefinitionsPattern with
  | none =>
    simp only [hg] at h
    exact Except.noConfusion h
  | some files =>
    simp only [hg] at h
    exact addDefinitionFilesList_index env files p p' l h

/-- The source-file loop never touches the index field. -/
theorem readProjectFiles_index (env : Env) :
    ∀ (names : List String) (p p' : ProjectJson) (l : List LogEntry),
      readProjectFiles env p names = Except.ok (p', l) → p'.index = p.index := by
  intro names
  induction names with
  | nil =>
    intro p p' l h
    simp only [readProjectFiles, Except.ok.injEq, Prod.mk.injEq] at h
    rw [← h.1]
  | cons n rest ih =>
    intro p p' l h
    simp only [readProjectFiles] at h
    cases hr : env.readFile n with
    | none =>
      simp only [hr] at h
      exact Except.noConfusion h
    | some t =>
      simp only [hr] at h
      cases hrec : readProjectFiles env
          { p with files := p.files ++ [{ name := n, text := t, type := getProjectFileType n }] }
          rest with
      | error e =>
        simp only [hrec] at h
        exact Except.noConfusion h
      | ok pr =>
        obtain ⟨p'', logs⟩ := pr
        have hx := ih _ p'' logs hrec
        simp only [hrec, Except.ok.injEq, Prod.mk.injEq] at h
        rw [← h.1]
        exact hx

/-- The source-file phase never touches the index field. -/
theorem addProjectFiles_index (env : Env) (p p' : ProjectJson) (exts : String)
    (l : List LogEntry)
    (h : addProjectFiles env p exts = Except.ok (p', l)) : p'.index = p.index := by
  unfold addProjectFiles at h
  split at h
  · simp only [Except.ok.injEq, Prod.mk.injEq] at h
    rw [← h.1]
  · split at h
    · exact Except.noConfusion h
    · rename_i names hnames
      exact readProjectFiles_index env names p p' l h

/-- The dependency phase never touches the index field. -/
theorem addDependencies_index (env : Env) (p : ProjectJson) (fuel : Nat)
    (p' : ProjectJson) (l : List LogEntry)
    (h : addDependencies env p fuel = Except.ok (p', l)) : p'.index = p.index := by
  unfold addDependencies at h
  cases h1 : getDependencies env fuel
      (objAssign (objAssign p.dependencies.production p.package.peerDependencies)
        p.package.dependencies) [] with
  | none =>
    simp only [h1] at h
    exact Except.noConfusion h
  | some r =>
    simp only [h1] at h
    cases h2 : getDependencies env fuel
        (objAssign p.dependencies.development p.package.devDependencies) [] with
    | none =>
      simp only [h2] at h
      exact Except.noConfusion h
    | some r2 =>
      simp only [h2, Except.ok.injEq, Prod.mk.injEq] at h
      rw [← h.1]

/-- The concurrent gathering join never touches the index field. -/
theorem gatherPhases_index (env : Env) (args : ExportArgs) (fuel : Nat)
    (p0 p1 : ProjectJson) (lg : List LogEntry)
    (h : gatherPhases env args fuel p0 = Except.ok (p1, lg)) : p1.index = p0.index := by
  unfold gatherPhases at h
  cases h1 : addLibFiles env p0 with
  | error e =>
    simp only [h1] at h
    exact Except.noConfusion h
  | ok pr1 =>
    obtain ⟨pa, la⟩ := pr1
    simp only [h1] at h
    cases h2 : addTypesFiles env pa with
    | error e =>
      simp only [h2] at h
      exact Except.noConfusion h
    | ok pr2 =>
      obtain ⟨pb, lb⟩ := pr2
      simp only [h2] at h
      cases h3 : addDefinitionFiles env pb with
      | error e =>
        simp only [h3] at h
        exact Except.noConfusion h
      | ok pr3 =>
        obtain ⟨pc, lcx⟩ := pr3
        simp only [h3] at h
        cases h4 : addProjectFiles env pc (args.content.getD defaultIncludeExtensions) with
        | error e =>
          simp only [h4] at h
          exact Except.noConfusion h
        | ok pr4 =>
          obtain ⟨pd, ld⟩ := pr4
          simp only [h4] at h
          cases h5 : addDependencies env pd fuel with
          | error e =>
            simp only [h5] at h
            exact Except.noConfusion h
          | ok pr5 =>
            obtain ⟨pe, le⟩ := pr5
            simp only [h5, Except.ok.injEq, Prod.mk.injEq] at h
            rw [← h.1, addDependencies_index env pd fuel pe le h5,
              addProjectFiles_index env pc pd (args.content.getD defaultIncludeExtensions) ld h4,
              addDefinitionFiles_index env pb pc lcx h3,
              addTypesFiles_index env pa pb lb h2,
              addLibFiles_index env p0 pa la h1]

/-- The bundle skeleton leaves `createProject` with an empty index. -/
theorem createProject_index (env : Env) (p0 : ProjectJson) (lc : List LogEntry)
    (h : createProject env = Except.ok (p0, lc)) : p0.index = "" := by
  unfold createProject at h
  split at h
  · exact Except.noConfusion h
  · cases h1 : env.readFile "package.json" with
    | none =>
      simp only [h1] at h
      exact Except.noConfusion h
    | some ptext =>
      simp only [h1] at h
      cases h2 : env.parsePackage ptext with
      | none =>
        simp only [h2] at h
        exact Except.noConfusion h
      | some pj =>
        simp only [h2] at h
        cases h3 : env.readFile "tsconfig.json" with
        | none =>
          simp only [h3] at h
          exact Except.noConfusion h
        | some ttext =>
          simp only [h3] at h
          cases h4 : env.parseTsconfig ttext with
          | none =>
            simp only [h4] at h
            exact Except.noConfusion h
          | some tc =>
            simp only [h4] at h
            split at h
            · cases h5 : env.readFile ".dojorc" with
              | none =>
                simp only [h5] at h
                exact Except.noConfusion h
              | some dtext =>
                simp only [h5, Except.ok.injEq, Prod.mk.injEq] at h
                rw [← h.1]
                rfl
            · simp only [Except.ok.injEq, Prod.mk.injEq] at h
              rw [← h.1]
              rfl

end ExportProject

namespace ExportProject

/-- Claim C5: index validation is non-fatal and modifies only the index
field: when no collected file name equals the requested index path the
bundle is returned entirely unchanged — its index is still the empty
string it carries after gathering — together with one always-visible
error line, and the bundle file is still written; when a match exists,
only the index field is set. -/
theorem C5_index_validation (env : Env) (args : ExportArgs) (fuel : Nat)
    (p0 p1 : ProjectJson) (lc lg : List LogEntry)
    (hc : createProject env = Except.ok (p0, lc))
    (hg : gatherPhases env args fuel p0 = Except.ok (p1, lg)) :
    p1.index = "" ∧
    (∀ (p : ProjectJson) (idx : String), (∀ f ∈ p.files, f.name ≠ idx) →
      setProjectIndex p idx =
        (p, [⟨LogLevel.always, "error unable to find index \"" ++ idx ++ "\" in project."⟩])) ∧
    (∀ (p : ProjectJson) (idx : String), (∃ f ∈ p.files, f.name = idx) →
      setProjectIndex p idx = ({ p with index := idx }, [])) ∧
    (∀ (p : ProjectJson) (idx : String),
      (setProjectIndex p idx).1.files = p.files ∧
      (setProjectIndex p idx).1.dependencies = p.dependencies ∧
      (setProjectIndex p idx).1.environmentFiles = p.environmentFiles ∧
      (setProjectIndex p idx).1.package = p.package) ∧
    (env.writeOk (relPath env.projectCwd (normalizePath (joinPath
        (joinPath env.initialCwd args.out)
        (outFileName (setProjectIndex p1 (args.index.getD "./src/index.html")).1.package.name)))) =
          true →
      (exportProject env args fuel).written =
        [(relPath env.projectCwd (normalizePath (joinPath (joinPath env.initialCwd args.out)
            (outFileName (setProjectIndex p1 (args.index.getD "./src/index.html")).1.package.name))),
          (setProjectIndex p1 (args.index.getD "./src/index.html")).1)] ∧
      ∀ e ∈ (setProjectIndex p1 (args.index.getD "./src/index.html")).2,
        e ∈ (exportProject env args fuel).log) := by
  refine ⟨?_, ?_, ?_, ?_, ?_⟩
  · rw [gatherPhases_index env args fuel p0 p1 lg hg]
    exact createProject_index env p0 lc hc
  · intro p idx hno
    have hfind : p.files.find? (fun f => decide (f.name = idx)) = none := by
      apply List.find?_eq_none.mpr
      intro f hf
      simp only [decide_eq_true_eq]
      exact hno f hf
    simp [setProjectIndex, hfind]
  · intro p idx hex
    obtain ⟨f, hf, hname⟩ := hex
    have hfind : (p.files.find? (fun f => decide (f.name = idx))).isSome := by
      rw [List.find?_isSome]
      exact ⟨f, hf, by simp [hname]⟩
    simp [setProjectIndex, hfind]
  · intro p idx
    unfold setProjectIndex
    split <;> exact ⟨rfl, rfl, rfl, rfl⟩
  · intro hw
    cases hsi : setProjectIndex p1 (args.index.getD "./src/index.html") with
    | mk pX liX =>
      simp only [hsi] at hw
      have hpl : exportPipeline env args fuel = Except.ok
          (relPath env.projectCwd (normalizePath (joinPath (joinPath env.initialCwd args.out)
            (outFileName pX.package.name))), pX,
           lc ++ lg ++ liX ++
             [⟨LogLevel.always, "exported to \"" ++
               relPath env.initialCwd (relPath env.projectCwd (normalizePath (joinPath
                 (joinPath env.initialCwd args.out) (outFileName pX.package.name)))) ++ "\""⟩]) := by
        simp only [exportPipeline, hc, hg, hsi, hw, if_true]
      constructor
      · simp [exportProject, hpl, hsi]
      · intro e he
        simp only [hsi] at he
        have hlog : (exportProject env args fuel).log =
            ⟨LogLevel.always, "Export project bundle"⟩ ::
              (if env.projectCwd ≠ env.initialCwd then
                [⟨LogLevel.verbose,
                  "changing working directory to \"" ++ args.project ++ "\""⟩]
               else []) ++
              (lc ++ lg ++ liX ++
                [⟨LogLevel.always, "exported to \"" ++
                  relPath env.initialCwd (relPath env.projectCwd (normalizePath (joinPath
                    (joinPath env.initialCwd args.out) (outFileName pX.package.name)))) ++ "\""⟩]) := by
          simp [exportProject, hpl]
        rw [hlog]
        apply List.mem_cons_of_mem
        apply List.mem_append_right
        exact List.mem_append_left _ (List.mem_append_right _ he)

/-- Witness for C5: the collected files contain only src/other.ts, the
default index path does not match, and the bundle is still written
unchanged. -/
theorem C5_witness :
    p1C5.index = "" ∧
    setProjectIndex p1C5 "./src/index.html" =
      (p1C5,
       [⟨LogLevel.always, "error unable to find index \"./src/index.html\" in project."⟩]) ∧
    (exportProject envC5 {} 1).written =
      [(relPath envC5.projectCwd (normalizePath (joinPath (joinPath envC5.initialCwd ".")
          (outFileName (setProjectIndex p1C5 "./src/index.html").1.package.name))),
        (setProjectIndex p1C5 "./src/index.html").1)] := by
  have h := C5_index_validation envC5 {} 1 p0C5 p1C5
    [⟨LogLevel.verbose, "reading \"package.json\""⟩,
     ⟨LogLevel.verbose, "reading \"tsconfig.json\""⟩]
    [⟨LogLevel.verbose, "adding project file \"src/other.ts\""⟩,
     ⟨LogLevel.verbose, "resolving production dependecies:"⟩,
     ⟨LogLevel.verbose, "resolving development dependecies:"⟩]
    (by decide) (by decide)
  refine ⟨h.1, ?_, ?_⟩
  · exact h.2.1 p1C5 "./src/index.html" (by decide)
  · exact (h.2.2.2.2 (by decide)).1

end ExportProject
